import Mathlib

/-!
Verification of the concurrent endpoint latency prober (`src/latency.py` of the
bestIP repository).

Python strings are embedded as `List Char`, Python floats holding latency values
as `Lat` (a rational for a finite measurement, or the distinguished value
`Lat.inf` for `float('inf')`), and fallible parsing as `Except`/`Option`.
Network behavior inside a probe is abstracted by a `NetOutcome` oracle, and the
thread pool's nondeterministic per-round completion order by an arbitrary
subpermutation of the submitted tasks.
-/

namespace Latency

/-- Python strings, embedded as their character sequences. -/
abbrev Str := List Char

/-- The whitespace characters recognized by Python's `str.strip()` and `int()`
(ASCII fragment). -/
def pyIsSpace (c : Char) : Bool :=
  c == ' ' || c == '\t' || c == '\n' || c == '\r' || c == '\x0b' || c == '\x0c'

/-- Python `str.strip()`: remove leading and trailing whitespace. -/
def pyStrip (s : Str) : Str :=
  ((s.dropWhile pyIsSpace).reverse.dropWhile pyIsSpace).reverse

/-- A latency value as stored in the `all_results` dictionary of `latency.py`:
either a finite number of milliseconds or Python's `float('inf')`, which the
code uses to record every failed probe. -/
inductive Lat where
  | fin (v : ℚ)
  | inf
deriving DecidableEq

/-- The ordering Python's `sorted` uses on latency values: `inf` compares
greater than every finite float. -/
def Lat.leb : Lat → Lat → Bool
  | .fin a, .fin b => decide (a ≤ b)
  | .fin _, .inf => true
  | .inf, .fin _ => false
  | .inf, .inf => true

/-- Strict version of `Lat.leb`. -/
def Lat.ltb (a b : Lat) : Bool := a.leb b && !(b.leb a)

/-- Python `max` on two latency values (only ever applied to finite ones in
`save_results`). -/
def Lat.maxl : Lat → Lat → Lat
  | .fin a, .fin b => .fin (max a b)
  | _, _ => .inf

/-- Continuation of the digit grammar accepted by Python `int()`:
`T ::= ε | digit T | UNDERSCORE digit T` (an underscore must sit between two
digits). -/
def pyIntT : Str → Bool
  | [] => true
  | c :: rest =>
    if c = '_' then
      match rest with
      | [] => false
      | d :: rest2 => d.isDigit && pyIntT rest2
    else c.isDigit && pyIntT rest

/-- The unsigned digit grammar accepted by Python `int()`: a digit followed by
digits optionally separated by single underscores. -/
def pyIntS : Str → Bool
  | [] => false
  | c :: rest => c.isDigit && pyIntT rest

/-- Numeric value of a digit string (underscores already removed). -/
def digitsVal (g : Str) : Nat :=
  g.foldl (fun a c => a * 10 + (c.toNat - ('0').toNat)) 0

/-- Remove the underscore digit separators Python `int()` tolerates. -/
def stripUnderscores (g : Str) : Str := g.filter (fun c => decide (c ≠ '_'))

/-- Python `int(s)` on a string: optional surrounding whitespace, optional
sign, then digits with optional single underscore separators; `none` models a
`ValueError`. (ASCII digits only; Unicode digits are outside this embedding.) -/
def pyInt? (s : Str) : Option Int :=
  match pyStrip s with
  | [] => none
  | c :: rest =>
    if c = '+' then
      (if pyIntS rest then some ((digitsVal (stripUnderscores rest) : Nat) : Int) else none)
    else if c = '-' then
      (if pyIntS rest then some (-((digitsVal (stripUnderscores rest) : Nat) : Int)) else none)
    else
      (if pyIntS (c :: rest) then
        some ((digitsVal (stripUnderscores (c :: rest)) : Nat) : Int)
      else none)

/-- One group of the regex `(\d{1,3}\.){3}\d{1,3}`: one to three ASCII digits. -/
def isOctetGroup (g : Str) : Bool :=
  decide (1 ≤ g.length) && decide (g.length ≤ 3) && g.all Char.isDigit

/-- Fully-anchored body of `re.match(r'^(\d{1,3}\.){3}\d{1,3}$', s)`: four
dot-separated groups of one to three digits. -/
def ipv4PatternCore (s : Str) : Bool :=
  match s.splitOn '.' with
  | [a, b, c, d] =>
    isOctetGroup a && isOctetGroup b && isOctetGroup c && isOctetGroup d
  | _ => false

/-- Python's `re.match` with this `$`-terminated pattern: `$` matches at the
end of the string and also just before one trailing newline. -/
def ipv4PatternMatch (s : Str) : Bool :=
  ipv4PatternCore s ||
    (decide (s.getLast? = some '\n') && ipv4PatternCore s.dropLast)

/-- `validate_ip` from `latency.py`: regex match, then each dot-separated
field converted with `int()` and range-checked against `[0, 255]`. The `none`
arm of the `int()` conversion is unreachable once the regex has matched (every
field is then digits, at most with one trailing newline). -/
def validate_ip (ip : Str) : Bool :=
  if ipv4PatternMatch ip then
    (ip.splitOn '.').all (fun octet =>
      match pyInt? octet with
      | some v => decide (0 ≤ v) && decide (v ≤ 255)
      | none => false)
  else false

/-- `validate_port` from `latency.py`. -/
def validate_port (port : Int) : Bool :=
  decide (1 ≤ port) && decide (port ≤ 65535)

/-- The four distinct `ValidationError` raise sites of `parse_address`,
distinguished by their message text. -/
inductive ValidationError where
  | malformedLine (line : Str)
  | invalidIP (ip : Str)
  | invalidPortNumber (field : Str)
  | portOutOfRange (port : Int)
deriving DecidableEq

/-- Whether an error is one of the two port-related raise sites (the spec's
`InvalidPort` classification). -/
def ValidationError.isPortError : ValidationError → Bool
  | .invalidPortNumber _ => true
  | .portOutOfRange _ => true
  | _ => false

/-- `parse_address` from `latency.py`: split the stripped line on commas,
validate the IP field, convert and range-check the port field, and strip the
remaining info fields. -/
def parse_address (address : Str) : Except ValidationError (Str × Int × List Str) :=
  match (pyStrip address).splitOn ',' with
  | p0 :: p1 :: rest =>
    let ip := pyStrip p0
    if !(validate_ip ip) then Except.error (ValidationError.invalidIP ip)
    else
      match pyInt? (pyStrip p1) with
      | none => Except.error (ValidationError.invalidPortNumber p1)
      | some port =>
        if !(validate_port port) then Except.error (ValidationError.portOutOfRange port)
        else Except.ok (ip, port, rest.map pyStrip)
  | _ => Except.error (ValidationError.malformedLine address)

/-- The possible behaviors of `socket.create_connection` for one probe,
abstracted as an oracle: success after a given elapsed time (in seconds), or
one of the three caught exception classes of `measure_latency`. -/
inductive NetOutcome where
  | success (elapsedSec : ℚ)
  | timeout
  | refused
  | osError (msg : Str)
deriving DecidableEq

/-- Whether the connection attempt succeeded. -/
def NetOutcome.isSuccess : NetOutcome → Bool
  | .success _ => true
  | _ => false

/-- `measure_latency` from `latency.py`, with the socket call abstracted by a
`NetOutcome`. It returns the original address line, a latency value
(`float('inf')` on every failure), and an optional error message; each caught
exception class yields a normal return, never a raise. -/
def measure_latency (parsed_addr : Str × Int × Str) (net : NetOutcome) :
    Str × Lat × Option Str :=
  let original_address := parsed_addr.2.2
  match net with
  | .success e => (original_address, Lat.fin (e * 1000), none)
  | .timeout => (original_address, Lat.inf, some ("Connection timeout".toList))
  | .refused => (original_address, Lat.inf, some ("Connection refused".toList))
  | .osError m => (original_address, Lat.inf, some (("Network error: ".toList) ++ m))

/-- The per-endpoint aggregation step of `save_results`: if the history is
nonempty, keep the finite latencies and take their Python `max` (a `foldl`
over the list with its head as the accumulator seed); an empty history or one
with no finite latency yields `float('inf')`. -/
def maxLatency (latencies : List Lat) : Lat :=
  if latencies.isEmpty then Lat.inf
  else
    match latencies.filter (fun l => decide (l ≠ Lat.inf)) with
    | [] => Lat.inf
    | v :: vs => vs.foldl Lat.maxl v

/-- Specification-side helper: the subsequence of successful (finite)
latencies of a history, in order. -/
def successes : List Lat → List ℚ
  | [] => []
  | Lat.fin v :: rest => v :: successes rest
  | Lat.inf :: rest => successes rest

/-- The `max_latencies` dictionary of `save_results`, as an association list
in the insertion order of `results` (Python dicts preserve it). -/
def max_latencies (results : List (Str × List Lat)) : List (Str × Lat) :=
  results.map (fun p => (p.1, maxLatency p.2))

/-- The comparison used by `sorted(max_latencies.items(), key=lambda item:
item[1])`. -/
def recLeb (a b : Str × Lat) : Bool := Lat.leb a.2 b.2

/-- `sorted_results` of `save_results`: Python's `sorted` is a stable
ascending sort, embedded as a stable merge sort on the latency key. -/
def sorted_results (results : List (Str × List Lat)) : List (Str × Lat) :=
  (max_latencies results).mergeSort recLeb

/-- Round-half-even of `q * 100`, computed on the numerator and denominator so
it stays kernel-computable: the integer count of hundredths that Python's
float formatting rounds to. -/
def centsOf (q : ℚ) : Int :=
  let n : Int := q.num * 100
  let d : Int := (q.den : Int)
  let fl : Int := Int.fdiv n d
  let r : Int := n - fl * d
  if 2 * r < d then fl
  else if d < 2 * r then fl + 1
  else if Int.emod fl 2 = 0 then fl else fl + 1

/-- Decimal digits of a natural number. -/
def natToStr (n : Nat) : Str := Nat.toDigits 10 n

/-- Python's `f"{x:.2f}"`: the value rounded half-to-even to two decimal
places, with a minus sign for negative values and a zero-padded two-digit
fractional part. -/
def formatFix2 (q : ℚ) : Str :=
  let cents := centsOf q
  let sign : Str := if q < 0 then ['-'] else []
  let a := cents.natAbs
  sign ++ natToStr (a / 100) ++
    ('.' :: (if a % 100 < 10 then '0' :: natToStr (a % 100) else natToStr (a % 100)))

/-- The body of the write loop of `save_results` for one record: re-split the
stored address line on commas (the whole line was stripped when it was read;
the individual fields are not stripped here), build
`f"{ip}:{port}#{info}"` with `info = " ".join(parts[2:])`, then append either
the formatted latency or `Failed`. The written line's trailing newline is left
implicit. -/
def renderLine (address : Str) (max_latency : Lat) : Str :=
  let parts := (pyStrip address).splitOn ','
  let display_str :=
    match parts with
    | ip :: port :: rest => ip ++ (':' :: port) ++ ('#' :: List.intercalate [' '] rest)
    | _ => address
  match max_latency with
  | Lat.inf => display_str ++ (" Failed".toList)
  | Lat.fin v => display_str ++ (' ' :: formatFix2 v) ++ (" ms".toList)

/-- The full sequence of lines `save_results` writes for a given results
dictionary. -/
def save_results_lines (results : List (Str × List Lat)) : List Str :=
  (sorted_results results).map (fun p => renderLine p.1 p.2)

/-- What a call to `save_results` looks like to its caller: either a normal
return (Python `None`) or an exception escaping the function. -/
inductive SaveReturn where
  | normalReturn
  | raisedIOError
deriving DecidableEq

/-- Observable outcome of one `save_results` call: what the caller receives,
what ended up in the file, and whether `logger.error` ran. -/
structure SaveOutcome where
  ret : SaveReturn
  written : Option (List Str)
  loggedError : Bool
deriving DecidableEq

/-- `save_results` from `latency.py` with file I/O abstracted by an `ioFails`
flag: on an `IOError` the `except` clause logs the error and falls off the end
of the function, so the caller sees a normal `None` return either way. The
`results` argument is only read, never mutated. -/
def save_results (results : List (Str × List Lat)) (ioFails : Bool) : SaveOutcome :=
  if ioFails then
    { ret := SaveReturn.normalReturn, written := none, loggedError := true }
  else
    { ret := SaveReturn.normalReturn,
      written := some (save_results_lines results), loggedError := false }

/-- Python's dict comprehension `{addr[2]: [] for addr in parsed_addresses}`
keeps the first occurrence of each key: remove later duplicates. -/
def pyDedup : List Str → List Str
  | [] => []
  | x :: xs => x :: (pyDedup xs).filter (fun y => decide (y ≠ x))

/-- The `all_results` dictionary right after `main` builds it and before any
round is scheduled: every parsed line mapped to an empty history. -/
def initHistory (parsedLines : List Str) : List (Str × List Lat) :=
  (pyDedup parsedLines).map (fun L => (L, ([] : List Lat)))

/-- `all_results[address].append(latency)` on an association list (the key is
always present, because every task's line is one of the parsed lines). -/
def appendResult (hist : List (Str × List Lat)) (address : Str) (latency : Lat) :
    List (Str × List Lat) :=
  hist.map (fun p => if p.1 = address then (p.1, p.2 ++ [latency]) else p)

/-- The body of the `as_completed` loop of `main` for one finished future:
unpack `(address, latency, error)` and append only the latency — the error
classification is discarded. -/
def recordCompletion (hist : List (Str × List Lat)) (out : Str × Lat × Option Str) :
    List (Str × List Lat) :=
  appendResult hist out.1 out.2.1

/-- Modelled from the spec and `main`'s loop: one scheduler round processes
the completed probe results in some arbitrary completion order; each
completion appends its latency to its line's history. -/
def runRound (hist : List (Str × List Lat)) (completions : List (Str × Lat)) :
    List (Str × List Lat) :=
  completions.foldl (fun h c => appendResult h c.1 c.2) hist

/-- The history after a whole run: the initial dictionary followed by each
round's completions in order. -/
def runTrace (parsedLines : List Str) (trace : List (List (Str × Lat))) :
    List (Str × List Lat) :=
  trace.foldl runRound (initHistory parsedLines)

/-- A trace `main` can actually produce: at most `loops` rounds run (fewer
only under cancellation), and within a round each submitted task — one per
element of `parsed_addresses`, duplicates included — completes at most once,
in arbitrary order. -/
def validTrace (parsedLines : List Str) (loops : Nat)
    (trace : List (List (Str × Lat))) : Prop :=
  trace.length ≤ loops ∧
    ∀ round ∈ trace, (round.map Prod.fst).Subperm parsedLines

/-- Specification-side reading of one octet for the amended C3 claim: one to
three digits whose value is at most 255. -/
def goodOctet (g : Str) : Bool := isOctetGroup g && decide (digitsVal g ≤ 255)

/-- Specification-side reading of the amended C3 claim: exactly four
dot-separated fields of one to three digits, each with value in `[0, 255]`. -/
def goodIPv4 (s : Str) : Bool :=
  match s.splitOn '.' with
  | [a, b, c, d] => goodOctet a && goodOctet b && goodOctet c && goodOctet d
  | _ => false

/-- The literal reading of claim C3's acceptance condition: a numeric field is
any nonempty digit string (no length limit), and all four values lie in
`[0, 255]`. -/
def numericOctet (g : Str) : Bool :=
  decide (1 ≤ g.length) && g.all Char.isDigit && decide (digitsVal g ≤ 255)

/-- Claim C3's stated condition: exactly four dot-separated numeric fields,
all four octet values in `[0, 255]`. -/
def fourNumericFieldsInRange (s : Str) : Bool :=
  match s.splitOn '.' with
  | [a, b, c, d] => numericOctet a && numericOctet b && numericOctet c && numericOctet d
  | _ => false

/-- Append a character to the last group of a split (used to relate the split
of `l ++ [x]` to the split of `l` when `x` is not the separator). -/
def appendLastGroup : List (List Char) → Char → List (List Char)
  | [], x => [[x]]
  | [g], x => [g ++ [x]]
  | g :: g2 :: gs, x => g :: appendLastGroup (g2 :: gs) x

/-! ### Basic properties of the latency order -/

theorem Lat.leb_trans (a b c : Lat) (h1 : a.leb b = true) (h2 : b.leb c = true) :
    a.leb c = true := by
  cases a <;> cases b <;> cases c <;> simp_all [Lat.leb]
  exact le_trans h1 h2

theorem Lat.leb_total (a b : Lat) : (a.leb b || b.leb a) = true := by
  cases a <;> cases b <;> simp [Lat.leb]
  exact le_total _ _

theorem recLeb_trans (a b c : Str × Lat) (h1 : recLeb a b = true)
    (h2 : recLeb b c = true) : recLeb a c = true :=
  Lat.leb_trans a.2 b.2 c.2 h1 h2

theorem recLeb_total (a b : Str × Lat) : (recLeb a b || recLeb b a) = true :=
  Lat.leb_total a.2 b.2

/-! ### Aggregation: `maxLatency` versus the successful latencies -/

theorem filter_ne_inf (hist : List Lat) :
    hist.filter (fun l => decide (l ≠ Lat.inf)) = (successes hist).map Lat.fin := by
  induction hist with
  | nil => rfl
  | cons x xs ih =>
    cases x with
    | fin v =>
      simp only [List.filter_cons, successes, List.map_cons]
      rw [if_pos (by simp), ih]
    | inf =>
      simp only [List.filter_cons, successes]
      rw [if_neg (by simp), ih]

theorem foldl_maxl_map_fin (vs : List ℚ) (v : ℚ) :
    (vs.map Lat.fin).foldl Lat.maxl (Lat.fin v) = Lat.fin (vs.foldl max v) := by
  induction vs generalizing v with
  | nil => rfl
  | cons x xs ih => simp [List.foldl_cons, Lat.maxl, ih]

theorem le_foldl_max (vs : List ℚ) (v x : ℚ) (h : x ≤ v ∨ x ∈ vs) :
    x ≤ vs.foldl max v := by
  induction vs generalizing v with
  | nil => simpa using h
  | cons y ys ih =>
    rw [List.foldl_cons]
    rcases h with h | h
    · exact ih (max v y) (Or.inl (le_trans h (le_max_left v y)))
    · rcases List.mem_cons.mp h with rfl | h
      · exact ih (max v x) (Or.inl (le_max_right v x))
      · exact ih (max v y) (Or.inr h)

theorem foldl_max_mem (vs : List ℚ) (v : ℚ) :
    vs.foldl max v = v ∨ vs.foldl max v ∈ vs := by
  induction vs generalizing v with
  | nil => exact Or.inl rfl
  | cons y ys ih =>
    rw [List.foldl_cons]
    rcases ih (max v y) with h | h
    · rcases max_choice v y with he | he
      · exact Or.inl (by rw [h, he])
      · exact Or.inr (by rw [h, he]; exact List.mem_cons_self y ys)
    · exact Or.inr (List.mem_cons_of_mem y h)

theorem maxLatency_eq_inf (hist : List Lat) (hs : successes hist = []) :
    maxLatency hist = Lat.inf := by
  rcases hist with _ | ⟨x, xs⟩
  · rfl
  · have hf : (x :: xs).filter (fun l => decide (l ≠ Lat.inf)) = [] := by
      rw [filter_ne_inf, hs]; rfl
    unfold maxLatency
    rw [hf]
    simp

theorem maxLatency_eq_fin (hist : List Lat) (v : ℚ) (vs : List ℚ)
    (hs : successes hist = v :: vs) :
    maxLatency hist = Lat.fin (vs.foldl max v) := by
  have hf : hist.filter (fun l => decide (l ≠ Lat.inf)) = Lat.fin v :: vs.map Lat.fin := by
    rw [filter_ne_inf, hs]; rfl
  have hne : hist.isEmpty = false := by
    rcases hist with _ | _
    · simp [successes] at hs
    · rfl
  unfold maxLatency
  rw [hf, hne]
  simp only [Bool.false_eq_true, if_false]
  exact foldl_maxl_map_fin vs v

/-- C1: for every endpoint entry, `save_results` assigns representative
latency equal to the maximum of the successful (finite) latencies of its
history when at least one outcome succeeded — a finite value, realized here as
`Lat.fin` of the Python `max` fold, which is a member of and an upper bound of
the successful latencies — and assigns `float('inf')` (rendered as status
`failed`) iff no recorded outcome succeeded, including the empty history. -/
theorem aggregate_representative_latency (hist : List Lat) :
    (maxLatency hist = Lat.inf ↔ successes hist = []) ∧
    (∀ v vs, successes hist = v :: vs →
      maxLatency hist = Lat.fin (vs.foldl max v) ∧
      vs.foldl max v ∈ successes hist ∧
      ∀ x ∈ successes hist, x ≤ vs.foldl max v) := by
  constructor
  · constructor
    · intro hml
      rcases hs : successes hist with _ | ⟨v, vs⟩
      · rfl
      · rw [maxLatency_eq_fin hist v vs hs] at hml
        exact absurd hml (by simp)
    · exact maxLatency_eq_inf hist
  · intro v vs hs
    refine ⟨maxLatency_eq_fin hist v vs hs, ?_, ?_⟩
    · rw [hs]
      rcases foldl_max_mem vs v with h | h
      · rw [h]; exact List.mem_cons_self v vs
      · exact List.mem_cons_of_mem v h
    · intro x hx
      rw [hs] at hx
      rcases List.mem_cons.mp hx with rfl | hx
      · exact le_foldl_max vs x x (Or.inl le_rfl)
      · exact le_foldl_max vs v x (Or.inr hx)

/-- Witness for C1 at a concrete history with one failure and two successes. -/
theorem aggregate_representative_latency_witness :
    maxLatency [Lat.inf, Lat.fin 10, Lat.fin 20] = Lat.fin 20 := by
  have h := (aggregate_representative_latency [Lat.inf, Lat.fin 10, Lat.fin 20]).2 10 [20] rfl
  rw [h.1]
  decide

/-! ### Sink ordering -/

theorem Lat.ltb_irrefl (a : Lat) : a.ltb a = false := by
  cases a <;> simp [Lat.ltb]

/-- C2 (amended): the output of `save_results` is sorted ascending by
representative latency — whenever record `A` appears before record `B`,
`A`'s latency is `≤` `B`'s; whenever `A`'s latency is strictly below `B`'s,
`A` appears before `B`; every `failed` (infinite) record comes after every
`ok` record; and any two records whose aggregate latencies are already in
order — in particular ties, and pairs of failed records — keep their input
order (Python's `sorted` is stable). The original claim's biconditional
"A before B iff A's latency ≤ B's latency" fails for ties; see the
counterexample. -/
theorem sink_ordering_sorted_stable (results : List (Str × List Lat)) :
    (∀ i j : Fin (sorted_results results).length, i < j →
      Lat.leb ((sorted_results results).get i).2 ((sorted_results results).get j).2 = true) ∧
    (∀ i j : Fin (sorted_results results).length,
      Lat.ltb ((sorted_results results).get i).2 ((sorted_results results).get j).2 = true →
      i < j) ∧
    (∀ i j : Fin (sorted_results results).length, i < j →
      ((sorted_results results).get i).2 = Lat.inf →
      ((sorted_results results).get j).2 = Lat.inf) ∧
    (∀ i j : Fin (max_latencies results).length, i < j →
      Lat.leb ((max_latencies results).get i).2 ((max_latencies results).get j).2 = true →
      List.Sublist [(max_latencies results).get i, (max_latencies results).get j]
        (sorted_results results)) := by
  have hsorted := List.sorted_mergeSort recLeb_trans recLeb_total (max_latencies results)
  have hget : ∀ i j : Fin (sorted_results results).length, i < j →
      recLeb ((sorted_results results).get i) ((sorted_results results).get j) = true :=
    List.pairwise_iff_get.mp hsorted
  refine ⟨fun i j hij => hget i j hij, ?_, ?_, ?_⟩
  · intro i j hlt
    rcases lt_trichotomy i j with h | h | h
    · exact h
    · exfalso
      subst h
      rw [Lat.ltb_irrefl] at hlt
      exact Bool.false_ne_true hlt
    · exfalso
      have hj := hget j i h
      simp only [recLeb] at hj
      rw [Lat.ltb, hj] at hlt
      simp at hlt
  · intro i j hij hinf
    have h := hget i j hij
    simp only [recLeb] at h
    rw [hinf] at h
    cases hx : ((sorted_results results).get j).2 with
    | fin v => rw [hx] at h; exact absurd h (by simp [Lat.leb])
    | inf => rfl
  · intro i j hij hleb
    have hpair : List.Pairwise (fun a b => recLeb a b = true)
        [(max_latencies results).get i, (max_latencies results).get j] := by
      simp [List.pairwise_cons, recLeb]
      exact hleb
    have hidx : List.Pairwise (fun a b : Fin (max_latencies results).length => (a : ℕ) < b)
        [i, j] := by
      simp [List.pairwise_cons]
      exact hij
    have hsub : List.Sublist [(max_latencies results).get i, (max_latencies results).get j]
        (max_latencies results) := by
      simpa using List.map_get_sublist hidx
    exact List.sublist_mergeSort recLeb_trans recLeb_total hpair hsub

/-- The concrete results dictionary used for C2's witness and counterexample:
two endpoints with the same single finite latency. -/
def cexResults : List (Str × List Lat) :=
  [(("a".toList : Str), [Lat.fin 5]), (("b".toList : Str), [Lat.fin 5])]

/-- The first aggregated record of `cexResults`. -/
def cexRecA : Str × Lat := (("a".toList : Str), Lat.fin 5)

/-- The second aggregated record of `cexResults`. -/
def cexRecB : Str × Lat := (("b".toList : Str), Lat.fin 5)

/-- Witness for C2's amended theorem: two equal finite latencies keep their
input order in the sorted output. -/
theorem sink_ordering_sorted_stable_witness :
    List.Sublist [cexRecA, cexRecB] (sorted_results cexResults) := by
  have h := (sink_ordering_sorted_stable cexResults).2.2.2
    ⟨0, by decide⟩ ⟨1, by decide⟩ (by decide) (by decide)
  exact h

/-- C2 counterexample: with two records of equal finite latency the stated
biconditional fails. Record `cexRecB`'s latency is `≤` record `cexRecA`'s,
so the claim's "A appears before B iff A's latency ≤ B's latency" would put
`cexRecB` before `cexRecA`; but the output is `[cexRecA, cexRecB]`, in which
it does not appear before it. -/
theorem sink_ordering_counterexample :
    Lat.leb cexRecB.2 cexRecA.2 = true ∧
    sorted_results cexResults = [cexRecA, cexRecB] ∧
    ¬ List.Sublist [cexRecB, cexRecA] (sorted_results cexResults) := by
  have hml : max_latencies cexResults = [cexRecA, cexRecB] := by decide
  have hpair : List.Pairwise (fun a b => recLeb a b = true) [cexRecA, cexRecB] := by
    simp [List.pairwise_cons, recLeb]
    decide
  have hsub : List.Sublist [cexRecA, cexRecB] (sorted_results cexResults) :=
    List.sublist_mergeSort recLeb_trans recLeb_total hpair (by rw [hml])
  have hlen : (sorted_results cexResults).length = 2 := by
    have hp := List.mergeSort_perm (max_latencies cexResults) recLeb
    rw [sorted_results, hp.length_eq, hml]
    rfl
  have hs : sorted_results cexResults = [cexRecA, cexRecB] :=
    (hsub.eq_of_length (by rw [hlen]; rfl)).symm
  refine ⟨by decide, hs, ?_⟩
  rw [hs]
  intro hbad
  have hcontra := hbad.eq_of_length rfl
  exact absurd hcontra (by decide)

/-! ### The probe -/

/-- C6: a single probe returns, for every endpoint and network behavior: on
success the elapsed time converted to milliseconds as a finite latency with no
error classification; on timeout a `Connection timeout` classification; on
refusal a `Connection refused` classification; on any other OS-level error a
`Network error: ...` classification — in every failure case with the non-finite
latency `float('inf')`, and in every case by a normal return (the function
catches each exception class; it never raises). The latency component is
finite iff the connection succeeded, and the classification is absent iff the
connection succeeded. -/
theorem measure_latency_outcomes (addr : Str × Int × Str) (e : ℚ) (m : Str) :
    measure_latency addr (NetOutcome.success e) = (addr.2.2, Lat.fin (e * 1000), none) ∧
    measure_latency addr NetOutcome.timeout
      = (addr.2.2, Lat.inf, some ("Connection timeout".toList)) ∧
    measure_latency addr NetOutcome.refused
      = (addr.2.2, Lat.inf, some ("Connection refused".toList)) ∧
    measure_latency addr (NetOutcome.osError m)
      = (addr.2.2, Lat.inf, some (("Network error: ".toList) ++ m)) ∧
    (∀ net : NetOutcome,
      ((measure_latency addr net).2.2 = none ↔ net.isSuccess = true) ∧
      ((∃ v, (measure_latency addr net).2.1 = Lat.fin v) ↔ net.isSuccess = true)) := by
  refine ⟨rfl, rfl, rfl, rfl, ?_⟩
  intro net
  cases net <;> simp [measure_latency, NetOutcome.isSuccess]

/-- C10: the history stores only the bare latency value — every failure kind
is recorded as `float('inf')`, and the textual classification returned by the
probe is discarded when the scheduler appends the result, so two runs that
fail for different reasons leave identical histories. -/
theorem failure_kinds_indistinguishable (addr : Str × Int × Str) (n1 n2 : NetOutcome)
    (hist : List (Str × List Lat))
    (h1 : n1.isSuccess = false) (h2 : n2.isSuccess = false) :
    (measure_latency addr n1).2.1 = Lat.inf ∧
    recordCompletion hist (measure_latency addr n1)
      = recordCompletion hist (measure_latency addr n2) := by
  cases n1 <;> cases n2 <;>
    simp_all [NetOutcome.isSuccess, measure_latency, recordCompletion]

/-- Witness for C10: a timed-out and a refused probe of the same endpoint
leave the history in the same state. -/
theorem failure_kinds_indistinguishable_witness :
    recordCompletion [(("ln".toList : Str), ([] : List Lat))]
        (measure_latency (("1.1.1.1".toList : Str), 443, ("ln".toList : Str))
          NetOutcome.timeout)
      = recordCompletion [(("ln".toList : Str), ([] : List Lat))]
        (measure_latency (("1.1.1.1".toList : Str), 443, ("ln".toList : Str))
          NetOutcome.refused) :=
  (failure_kinds_indistinguishable (("1.1.1.1".toList : Str), 443, ("ln".toList : Str))
    NetOutcome.timeout NetOutcome.refused [(("ln".toList : Str), ([] : List Lat))]
    rfl rfl).2

/-! ### The sink's error handling -/

/-- C8 (amended): an I/O failure inside `save_results` is caught, reported to
the operator by an error log entry, and not propagated: the function returns
normally (`None`) whether or not the write failed. The in-memory results are
only read, never modified, so a subsequent retry with working I/O writes
exactly the rendered lines. -/
theorem save_results_reporting (results : List (Str × List Lat)) (ioFails : Bool) :
    (save_results results ioFails).ret = SaveReturn.normalReturn ∧
    (save_results results ioFails).loggedError = ioFails ∧
    (ioFails = false →
      (save_results results ioFails).written = some (save_results_lines results)) ∧
    (ioFails = true → (save_results results ioFails).written = none) := by
  cases ioFails <;> simp [save_results]

/-- Witness for C8's amended theorem at a concrete results dictionary. -/
theorem save_results_reporting_witness :
    (save_results [(("1.1.1.1,443".toList : Str), [Lat.fin 10])] true).written = none ∧
    (save_results [(("1.1.1.1,443".toList : Str), [Lat.fin 10])] false).written
      = some (save_results_lines [(("1.1.1.1,443".toList : Str), [Lat.fin 10])]) :=
  ⟨(save_results_reporting [(("1.1.1.1,443".toList : Str), [Lat.fin 10])] true).2.2.2 rfl,
   (save_results_reporting [(("1.1.1.1,443".toList : Str), [Lat.fin 10])] false).2.2.1 rfl⟩

/-- C8 counterexample: on an I/O failure `save_results` returns normally,
exactly as on success — the caller receives no `IOFailure`; the error is only
logged. This refutes the claim that the failure is reported to the caller
through a `success | IOFailure` contract. -/
theorem save_results_swallows_ioerror :
    (save_results [(("1.1.1.1,443".toList : Str), [Lat.fin 10])] true).ret
      = SaveReturn.normalReturn ∧
    (save_results [(("1.1.1.1,443".toList : Str), [Lat.fin 10])] true).ret
      = (save_results [(("1.1.1.1,443".toList : Str), [Lat.fin 10])] false).ret ∧
    (save_results [(("1.1.1.1,443".toList : Str), [Lat.fin 10])] true).loggedError = true :=
  ⟨rfl, rfl, rfl⟩

/-! ### The validator's port handling -/

/-- C7: once a line reaches the port check (at least two comma-separated
fields, valid IP field), `parse_address` accepts iff Python `int()` parses the
stripped second field to some `p` with `1 ≤ p ≤ 65535`, in which case that `p`
is the returned port; otherwise it fails with one of the two port
classifications (`Invalid port number` for an unparsable field, `Port out of
range` for a parsable one outside the range). -/
theorem parse_address_port_acceptance (address p0 p1 : Str) (rest : List Str)
    (hsplit : (pyStrip address).splitOn ',' = p0 :: p1 :: rest)
    (hip : validate_ip (pyStrip p0) = true) :
    (∀ ip port info, parse_address address = Except.ok (ip, port, info) →
      pyInt? (pyStrip p1) = some port ∧ validate_port port = true) ∧
    (∀ p, pyInt? (pyStrip p1) = some p → validate_port p = true →
      parse_address address = Except.ok (pyStrip p0, p, rest.map pyStrip)) ∧
    (∀ e, parse_address address = Except.error e → e.isPortError = true) := by
  have hpa : parse_address address =
      (if !(validate_ip (pyStrip p0)) then
        Except.error (ValidationError.invalidIP (pyStrip p0))
      else
        match pyInt? (pyStrip p1) with
        | none => Except.error (ValidationError.invalidPortNumber p1)
        | some port =>
          if !(validate_port port) then
            Except.error (ValidationError.portOutOfRange port)
          else Except.ok (pyStrip p0, port, rest.map pyStrip)) := by
    unfold parse_address
    rw [hsplit]
  rw [hip] at hpa
  simp only [Bool.not_true, Bool.false_eq_true, if_false] at hpa
  rcases hpp : pyInt? (pyStrip p1) with _ | p <;> rw [hpp] at hpa
  · have hpa2 : parse_address address
        = Except.error (ValidationError.invalidPortNumber p1) := hpa
    refine ⟨?_, ?_, ?_⟩
    · intro ip port info hok
      rw [hpa2] at hok
      exact absurd hok (by simp)
    · intro p hp
      simp at hp
    · intro e he
      rw [hpa2] at he
      injection he with h1
      rw [← h1]
      rfl
  · have hpa2 : parse_address address =
        (if !(validate_port p) then Except.error (ValidationError.portOutOfRange p)
         else Except.ok (pyStrip p0, p, rest.map pyStrip)) := hpa
    cases hvp : validate_port p
    · rw [hvp] at hpa2
      simp only [Bool.not_false, if_true] at hpa2
      refine ⟨?_, ?_, ?_⟩
      · intro ip port info hok
        rw [hpa2] at hok
        exact absurd hok (by simp)
      · intro q hq hvq
        injection hq with h1
        rw [← h1] at hvq
        rw [hvq] at hvp
        exact absurd hvp (by simp)
      · intro e he
        rw [hpa2] at he
        injection he with h1
        rw [← h1]
        rfl
    · rw [hvp] at hpa2
      simp only [Bool.not_true, Bool.false_eq_true, if_false] at hpa2
      refine ⟨?_, ?_, ?_⟩
      · intro ip port info hok
        rw [hpa2] at hok
        simp only [Except.ok.injEq, Prod.mk.injEq] at hok
        rw [← hok.2.1]
        exact ⟨rfl, hvp⟩
      · intro q hq hvq
        injection hq with h1
        rw [← h1]
        exact hpa2
      · intro e he
        rw [hpa2] at he
        exact absurd he (by simp)

/-- Witness for C7 on the line `1.1.1.1, 443, US`. -/
theorem parse_address_port_acceptance_witness :
    parse_address ("1.1.1.1, 443, US".toList)
      = Except.ok (("1.1.1.1".toList : Str), 443, [("US".toList : Str)]) := by
  have h := (parse_address_port_acceptance ("1.1.1.1, 443, US".toList)
      ("1.1.1.1".toList) (" 443".toList) [(" US".toList)] (by decide) (by decide)).2.1
      443 (by decide) (by decide)
  exact h

/-! ### The measurement history -/

theorem mem_pyDedup (xs : List Str) (K : Str) : K ∈ pyDedup xs ↔ K ∈ xs := by
  induction xs with
  | nil => simp [pyDedup]
  | cons x xs ih =>
    by_cases hx : K = x
    · subst hx
      simp [pyDedup]
    · simp [pyDedup, List.mem_filter, hx, ih]

theorem lookup_cons_self {β : Type} (K k : Str) (w : β) (L : List (Str × β))
    (h : K = k) : List.lookup K ((k, w) :: L) = some w := by
  subst h
  simp [List.lookup]

theorem lookup_cons_ne {β : Type} (K k : Str) (w : β) (L : List (Str × β))
    (h : ¬ K = k) : List.lookup K ((k, w) :: L) = List.lookup K L := by
  have hbeq : (K == k) = false := by simp [h]
  simp [List.lookup, hbeq]

theorem lookup_map_empty (xs : List Str) (K : Str) (h : K ∈ xs) :
    (xs.map (fun L => (L, ([] : List Lat)))).lookup K = some [] := by
  induction xs with
  | nil => cases h
  | cons x xs ih =>
    by_cases hx : K = x
    · rw [List.map_cons, lookup_cons_self K x ([] : List Lat) _ hx]
    · have h1 : K ∈ xs := by
        rcases List.mem_cons.mp h with h2 | h2
        · exact absurd h2 hx
        · exact h2
      rw [List.map_cons, lookup_cons_ne K x ([] : List Lat) _ hx]
      exact ih h1

theorem lookup_map_empty_val (xs : List Str) (K : Str) (v : List Lat)
    (h : (xs.map (fun L => (L, ([] : List Lat)))).lookup K = some v) : v = [] := by
  induction xs with
  | nil => simp [List.lookup] at h
  | cons x xs ih =>
    by_cases hx : K = x
    · rw [List.map_cons, lookup_cons_self K x ([] : List Lat) _ hx] at h
      injection h with h1
      exact h1.symm
    · rw [List.map_cons, lookup_cons_ne K x ([] : List Lat) _ hx] at h
      exact ih h

theorem lookup_appendResult (hist : List (Str × List Lat)) (K addr : Str) (lat : Lat) :
    (appendResult hist addr lat).lookup K =
      if K = addr then (hist.lookup K).map (fun h => h ++ [lat])
      else hist.lookup K := by
  induction hist with
  | nil =>
    by_cases h : K = addr <;> simp [appendResult, List.lookup, h]
  | cons p ps ih =>
    obtain ⟨k, v⟩ := p
    have hcons : appendResult ((k, v) :: ps) addr lat
        = (if k = addr then (k, v ++ [lat]) else (k, v)) :: appendResult ps addr lat := rfl
    rw [hcons]
    by_cases h1 : k = addr
    · rw [if_pos h1]
      by_cases h2 : K = k
      · have hKa : K = addr := h2.trans h1
        rw [lookup_cons_self K k (v ++ [lat]) _ h2, if_pos hKa,
          lookup_cons_self K k v ps h2]
        rfl
      · have hKa : ¬ K = addr := fun he => h2 (he.trans h1.symm)
        rw [lookup_cons_ne K k (v ++ [lat]) _ h2, lookup_cons_ne K k v ps h2,
          if_neg hKa, ih, if_neg hKa]
    · rw [if_neg h1]
      by_cases h2 : K = k
      · have hKa : ¬ K = addr := fun he => h1 ((h2.symm.trans he))
        rw [lookup_cons_self K k v _ h2, if_neg hKa, lookup_cons_self K k v ps h2]
      · rw [lookup_cons_ne K k v _ h2, lookup_cons_ne K k v ps h2, ih]

theorem lookup_runRound (comps : List (Str × Lat)) (hist : List (Str × List Lat)) (K : Str) :
    (runRound hist comps).lookup K =
      (hist.lookup K).map
        (fun h => h ++ (comps.filter (fun c => decide (c.1 = K))).map Prod.snd) := by
  induction comps generalizing hist with
  | nil =>
    have h0 : runRound hist [] = hist := rfl
    rw [h0]
    cases hlk : hist.lookup K with
    | none => rfl
    | some h => simp
  | cons c cs ih =>
    have h1 : runRound hist (c :: cs) = runRound (appendResult hist c.1 c.2) cs := rfl
    rw [h1, ih, lookup_appendResult]
    by_cases hc : c.1 = K
    · rw [if_pos hc.symm]
      cases hlk : hist.lookup K with
      | none => simp
      | some h => simp [List.filter_cons, hc, List.append_assoc]
    · rw [if_neg (fun he => hc he.symm)]
      simp [List.filter_cons, hc]

theorem lookup_foldl_runRound (trace : List (List (Str × Lat)))
    (hist : List (Str × List Lat)) (K : Str) :
    (trace.foldl runRound hist).lookup K =
      (hist.lookup K).map (fun h =>
        h ++ (trace.map
          (fun r => (r.filter (fun c => decide (c.1 = K))).map Prod.snd)).flatten) := by
  induction trace generalizing hist with
  | nil =>
    have h0 : List.foldl runRound hist [] = hist := rfl
    rw [h0]
    cases hlk : hist.lookup K with
    | none => rfl
    | some h => simp
  | cons r rs ih =>
    rw [List.foldl_cons, ih, lookup_runRound]
    cases hlk : hist.lookup K with
    | none => simp
    | some h => simp [List.append_assoc]

theorem countP_key_le_one (xs : List Str) (K : Str) (hnd : xs.Nodup) :
    xs.countP (fun x => decide (x = K)) ≤ 1 := by
  induction xs with
  | nil => simp
  | cons x l ih =>
    rw [List.countP_cons]
    by_cases hx : x = K
    · have hnotin : x ∉ l := (List.nodup_cons.mp hnd).1
      have h0 : l.countP (fun y => decide (y = K)) = 0 := by
        rw [List.countP_eq_zero]
        intro a ha
        simp only [decide_eq_true_eq]
        intro haK
        exact hnotin ((haK.trans hx.symm) ▸ ha)
      simp [h0, hx]
    · simp only [hx, decide_False, Bool.false_eq_true, if_false, Nat.add_zero]
      exact ih (List.nodup_cons.mp hnd).2

theorem round_key_bound (round : List (Str × Lat)) (parsedLines : List Str) (K : Str)
    (hsub : (round.map Prod.fst).Subperm parsedLines) (hnd : parsedLines.Nodup) :
    (round.filter (fun c => decide (c.1 = K))).length ≤ 1 := by
  have h1 : (round.filter (fun c => decide (c.1 = K))).length
      = (round.map Prod.fst).countP (fun x => decide (x = K)) := by
    rw [List.countP_map, List.countP_eq_length_filter]
    rfl
  rw [h1]
  exact le_trans (hsub.countP_le (fun x => decide (x = K)))
    (countP_key_le_one parsedLines K hnd)

theorem flatten_length_le (L : List (List Lat)) (h : ∀ x ∈ L, x.length ≤ 1) :
    L.flatten.length ≤ L.length := by
  induction L with
  | nil => simp
  | cons x xs ih =>
    have h1 := h x (List.mem_cons_self x xs)
    have h2 := ih (fun y hy => h y (List.mem_cons_of_mem x hy))
    simp only [List.flatten_cons, List.length_append, List.length_cons]
    omega

/-- C5 (amended): every endpoint line surviving validation is a key of the
history with an empty list before any round is scheduled; and after any valid
trace of at most `loops` rounds — each round completing each submitted task at
most once — every entry's history length is at most `loops`, provided the
parsed lines are distinct. (With duplicated input lines the bound fails; see
the counterexample.) -/
theorem history_init_and_bound (parsedLines : List Str) (loops : Nat)
    (trace : List (List (Str × Lat)))
    (hnd : parsedLines.Nodup) (hv : validTrace parsedLines loops trace) :
    (∀ L ∈ parsedLines, (initHistory parsedLines).lookup L = some []) ∧
    (∀ L h, (runTrace parsedLines trace).lookup L = some h → h.length ≤ loops) := by
  constructor
  · intro L hL
    exact lookup_map_empty (pyDedup parsedLines) L ((mem_pyDedup parsedLines L).mpr hL)
  · intro L h hl
    rw [runTrace, lookup_foldl_runRound] at hl
    cases hinit : (initHistory parsedLines).lookup L with
    | none => rw [hinit] at hl; simp at hl
    | some h0 =>
      rw [hinit] at hl
      simp only [Option.map_some'] at hl
      injection hl with h1
      have h0e : h0 = [] := lookup_map_empty_val (pyDedup parsedLines) L h0 hinit
      have hbound : ∀ x ∈ trace.map
          (fun r => (r.filter (fun c => decide (c.1 = L))).map Prod.snd), x.length ≤ 1 := by
        intro x hx
        obtain ⟨r, hr, rfl⟩ := List.mem_map.mp hx
        rw [List.length_map]
        exact round_key_bound r parsedLines L (hv.2 r hr) hnd
      have hflat := flatten_length_le _ hbound
      rw [List.length_map] at hflat
      rw [← h1, h0e, List.nil_append]
      exact le_trans hflat hv.1

/-- Witness for C5's amended theorem: one distinct line, two configured
rounds, a one-round trace. -/
theorem history_init_and_bound_witness :
    (initHistory [("1.1.1.1,443".toList : Str)]).lookup ("1.1.1.1,443".toList) = some [] ∧
    ([Lat.fin 7] : List Lat).length ≤ 2 := by
  have hv : validTrace [("1.1.1.1,443".toList : Str)] 2
      [[(("1.1.1.1,443".toList : Str), Lat.fin 7)]] := by
    constructor
    · decide
    · intro r hr
      simp only [List.mem_singleton] at hr
      subst hr
      simp only [List.map_cons, List.map_nil]
      exact List.Subperm.refl _
  have h := history_init_and_bound [("1.1.1.1,443".toList : Str)] 2
      [[(("1.1.1.1,443".toList : Str), Lat.fin 7)]] (by decide) hv
  exact ⟨h.1 ("1.1.1.1,443".toList) (by decide),
    h.2 ("1.1.1.1,443".toList) [Lat.fin 7] (by decide)⟩

/-- C5 counterexample: with the line `1.1.1.1,443` appearing twice among the
parsed addresses, a single round submits two tasks for the same key, so after
one round (round count `1`) the shared history entry has length `2` — the
claimed bound by the round count fails. -/
theorem history_bound_counterexample :
    validTrace [("1.1.1.1,443".toList : Str), ("1.1.1.1,443".toList : Str)] 1
      [[(("1.1.1.1,443".toList : Str), Lat.fin 1), (("1.1.1.1,443".toList : Str), Lat.fin 2)]] ∧
    (runTrace [("1.1.1.1,443".toList : Str), ("1.1.1.1,443".toList : Str)]
        [[(("1.1.1.1,443".toList : Str), Lat.fin 1),
          (("1.1.1.1,443".toList : Str), Lat.fin 2)]]).lookup ("1.1.1.1,443".toList)
      = some [Lat.fin 1, Lat.fin 2] ∧
    ¬ (([Lat.fin 1, Lat.fin 2] : List Lat).length ≤ 1) := by
  refine ⟨⟨by decide, ?_⟩, by decide, by decide⟩
  intro r hr
  simp only [List.mem_singleton] at hr
  subst hr
  simp only [List.map_cons, List.map_nil]
  exact List.Subperm.refl _

/-! ### IPv4 validation -/

theorem isDigit_not_space (c : Char) (h : c.isDigit = true) : pyIsSpace c = false := by
  cases hsp : pyIsSpace c
  · rfl
  · exfalso
    rw [pyIsSpace] at hsp
    simp only [Bool.or_eq_true, beq_iff_eq] at hsp
    rcases hsp with ((((rfl | rfl) | rfl) | rfl) | rfl) | rfl <;> exact absurd h (by decide)

theorem dropWhile_isSpace_digits (l : Str) (hd : ∀ c ∈ l, c.isDigit = true) :
    l.dropWhile pyIsSpace = l := by
  cases l with
  | nil => rfl
  | cons c cs =>
    rw [List.dropWhile_cons, isDigit_not_space c (hd c (List.mem_cons_self c cs))]
    simp

theorem pyStrip_digits (g : Str) (hd : ∀ c ∈ g, c.isDigit = true) : pyStrip g = g := by
  rw [pyStrip, dropWhile_isSpace_digits g hd, dropWhile_isSpace_digits g.reverse
    (fun c hc => hd c (List.mem_reverse.mp hc)), List.reverse_reverse]

theorem pyIntT_digits (l : Str) (hd : ∀ c ∈ l, c.isDigit = true) : pyIntT l = true := by
  induction l with
  | nil => rfl
  | cons c cs ih =>
    have hc := hd c (List.mem_cons_self c cs)
    have hne : ¬ c = '_' := fun he => absurd hc (by rw [he]; decide)
    cases cs with
    | nil =>
      rw [pyIntT.eq_2, if_neg hne, hc]
      rfl
    | cons d rest2 =>
      rw [pyIntT.eq_3, if_neg hne, hc, ih (fun x hx => hd x (List.mem_cons_of_mem c hx))]
      rfl

theorem pyIntS_digits (g : Str) (hne : g ≠ []) (hd : ∀ c ∈ g, c.isDigit = true) :
    pyIntS g = true := by
  cases g with
  | nil => exact absurd rfl hne
  | cons c cs =>
    simp only [pyIntS]
    rw [hd c (List.mem_cons_self c cs), pyIntT_digits cs
      (fun x hx => hd x (List.mem_cons_of_mem c hx))]
    rfl

theorem stripUnderscores_digits (g : Str) (hd : ∀ c ∈ g, c.isDigit = true) :
    stripUnderscores g = g := by
  rw [stripUnderscores, List.filter_eq_self]
  intro c hc
  have hdc := hd c hc
  simp only [decide_eq_true_eq]
  intro he
  rw [he] at hdc
  exact absurd hdc (by decide)

theorem pyInt_strip (g t : Str) (hstrip : pyStrip g = t) (hne : t ≠ [])
    (hd : ∀ c ∈ t, c.isDigit = true) :
    pyInt? g = some ((digitsVal t : Nat) : Int) := by
  cases t with
  | nil => exact absurd rfl hne
  | cons c cs =>
    have hc := hd c (List.mem_cons_self c cs)
    have hplus : ¬ c = '+' := fun he => absurd hc (by rw [he]; decide)
    have hminus : ¬ c = '-' := fun he => absurd hc (by rw [he]; decide)
    simp only [pyInt?, hstrip]
    rw [if_neg hplus, if_neg hminus, if_pos (pyIntS_digits (c :: cs) hne hd),
      stripUnderscores_digits (c :: cs) hd]

theorem pyInt_digits (g : Str) (hne : g ≠ []) (hd : ∀ c ∈ g, c.isDigit = true) :
    pyInt? g = some ((digitsVal g : Nat) : Int) :=
  pyInt_strip g g (pyStrip_digits g hd) hne hd

theorem pyStrip_digits_newline (d : Str) (hne : d ≠ [])
    (hd : ∀ c ∈ d, c.isDigit = true) : pyStrip (d ++ ['\n']) = d := by
  rw [pyStrip]
  have hfront : (d ++ ['\n']).dropWhile pyIsSpace = d ++ ['\n'] := by
    cases d with
    | nil => exact absurd rfl hne
    | cons c cs =>
      rw [List.cons_append, List.dropWhile_cons,
        isDigit_not_space c (hd c (List.mem_cons_self c cs))]
      simp
  rw [hfront, List.reverse_concat, List.dropWhile_cons]
  have hsp : pyIsSpace '\n' = true := by decide
  rw [hsp]
  simp only [if_true]
  rw [dropWhile_isSpace_digits d.reverse (fun c hc => hd c (List.mem_reverse.mp hc)),
    List.reverse_reverse]

theorem octet_group_facts (g : Str) (hg : isOctetGroup g = true) :
    g ≠ [] ∧ ∀ c ∈ g, c.isDigit = true := by
  rw [isOctetGroup] at hg
  simp only [Bool.and_eq_true, decide_eq_true_eq, List.all_eq_true] at hg
  obtain ⟨⟨h1, _h2⟩, h3⟩ := hg
  refine ⟨?_, h3⟩
  intro he
  rw [he] at h1
  simp at h1

theorem octet_check_strip (g t : Str) (hstrip : pyStrip g = t) (hne : t ≠ [])
    (hd : ∀ c ∈ t, c.isDigit = true) :
    (match pyInt? g with
     | some v => decide (0 ≤ v) && decide (v ≤ 255)
     | none => false) = decide (digitsVal t ≤ 255) := by
  rw [pyInt_strip g t hstrip hne hd]
  show (decide (0 ≤ ((digitsVal t : Nat) : Int))
      && decide (((digitsVal t : Nat) : Int) ≤ 255)) = decide (digitsVal t ≤ 255)
  have h0 : decide (0 ≤ ((digitsVal t : Nat) : Int)) = true :=
    decide_eq_true (Int.ofNat_nonneg _)
  rw [h0, Bool.true_and]
  exact decide_eq_decide.mpr (by omega)

theorem octet_check_eq (g : Str) (hg : isOctetGroup g = true) :
    (match pyInt? g with
     | some v => decide (0 ≤ v) && decide (v ≤ 255)
     | none => false) = decide (digitsVal g ≤ 255) := by
  obtain ⟨hne, hd⟩ := octet_group_facts g hg
  exact octet_check_strip g g (pyStrip_digits g hd) hne hd

theorem appendLastGroup_ne_nil (gs : List (List Char)) (x : Char) :
    appendLastGroup gs x ≠ [] := by
  rcases gs with _ | ⟨g, _ | ⟨g2, t⟩⟩ <;> simp [appendLastGroup]

theorem splitOnP_append_single (p : Char → Bool) (x : Char) (hx : p x = false)
    (l : Str) : (l ++ [x]).splitOnP p = appendLastGroup (l.splitOnP p) x := by
  induction l with
  | nil =>
    rw [List.nil_append, List.splitOnP_cons, hx, List.splitOnP_nil]
    simp [appendLastGroup]
  | cons a t ih =>
    rw [List.cons_append, List.splitOnP_cons, List.splitOnP_cons]
    obtain ⟨g2, gs, hg⟩ : ∃ g2 gs, t.splitOnP p = g2 :: gs := by
      rcases hne : t.splitOnP p with _ | ⟨g2, gs⟩
      · exact absurd hne (List.splitOnP_ne_nil p t)
      · exact ⟨g2, gs, rfl⟩
    by_cases hpa : p a = true
    · rw [hpa]
      simp only [if_true]
      rw [ih, hg]
      rfl
    · have hpa2 : p a = false := by
        cases hv : p a
        · rfl
        · exact absurd hv hpa
      rw [hpa2]
      simp only [Bool.false_eq_true, if_false]
      rw [ih, hg, List.modifyHead_cons]
      cases gs with
      | nil => simp [appendLastGroup, List.cons_append]
      | cons g3 gs2 => simp [appendLastGroup, List.modifyHead_cons]

theorem splitOn_append_newline (l : Str) :
    (l ++ ['\n']).splitOn '.' = appendLastGroup (l.splitOn '.') '\n' :=
  splitOnP_append_single (fun c => c == '.') '\n' (by decide) l

theorem core_false_of_newline (s : Str) (hnl : s.getLast? = some '\n') :
    ipv4PatternCore s = false := by
  have hsne : s ≠ [] := by
    intro he
    rw [he] at hnl
    simp at hnl
  have hlast : s.getLast hsne = '\n' := by
    have h1 := List.getLast?_eq_getLast s hsne
    rw [hnl] at h1
    injection h1 with h2
    exact h2.symm
  have hsdec : s.dropLast ++ ['\n'] = s := by
    have hd1 := List.dropLast_append_getLast hsne
    rw [hlast] at hd1
    exact hd1
  conv_lhs => rw [← hsdec]
  unfold ipv4PatternCore
  rw [splitOn_append_newline]
  obtain ⟨g1, gs, hg⟩ : ∃ g1 gs, s.dropLast.splitOn '.' = g1 :: gs := by
    rcases hne : s.dropLast.splitOn '.' with _ | ⟨g1, gs⟩
    · exact absurd hne (List.splitOnP_ne_nil (fun c => c == '.') s.dropLast)
    · exact ⟨g1, gs, rfl⟩
  rw [hg]
  rcases gs with _ | ⟨g2, _ | ⟨g3, _ | ⟨g4, _ | ⟨g5, t⟩⟩⟩⟩
  · rfl
  · rfl
  · rfl
  · have happ : appendLastGroup [g1, g2, g3, g4] '\n' = [g1, g2, g3, g4 ++ ['\n']] := rfl
    rw [happ]
    have hoct : isOctetGroup (g4 ++ ['\n']) = false := by
      rw [Bool.eq_false_iff]
      intro h
      obtain ⟨_, hdg⟩ := octet_group_facts _ h
      have hmem := hdg '\n' (by simp)
      exact absurd hmem (by decide)
    show (isOctetGroup g1 && isOctetGroup g2 && isOctetGroup g3
      && isOctetGroup (g4 ++ ['\n'])) = false
    rw [hoct, Bool.and_false]
  · rcases t with _ | ⟨g6, t2⟩
    · rfl
    · obtain ⟨h5, t5, he⟩ : ∃ h5 t5, appendLastGroup (g5 :: g6 :: t2) '\n' = h5 :: t5 := by
        rcases hne : appendLastGroup (g5 :: g6 :: t2) '\n' with _ | ⟨h5, t5⟩
        · exact absurd hne (appendLastGroup_ne_nil (g5 :: g6 :: t2) '\n')
        · exact ⟨h5, t5, rfl⟩
      have happ : appendLastGroup (g1 :: g2 :: g3 :: g4 :: g5 :: g6 :: t2) '\n'
          = g1 :: g2 :: g3 :: g4 :: appendLastGroup (g5 :: g6 :: t2) '\n' := rfl
      rw [happ, he]

theorem goodIPv4_imp_core (t : Str) (h : goodIPv4 t = true) :
    ipv4PatternCore t = true := by
  unfold goodIPv4 at h
  unfold ipv4PatternCore
  rcases hsp : t.splitOn '.' with _ | ⟨a, _ | ⟨b, _ | ⟨c, _ | ⟨d, _ | ⟨e, t2⟩⟩⟩⟩⟩ <;>
    rw [hsp] at h
  · exact absurd h (by simp)
  · exact absurd h (by simp)
  · exact absurd h (by simp)
  · exact absurd h (by simp)
  · have h2 : (goodOctet a && goodOctet b && goodOctet c && goodOctet d) = true := h
    simp only [goodOctet, Bool.and_eq_true] at h2
    show (isOctetGroup a && isOctetGroup b && isOctetGroup c && isOctetGroup d) = true
    simp only [Bool.and_eq_true]
    tauto
  · exact absurd h (by simp)

theorem core_shape (t : Str) (h : ipv4PatternCore t = true) :
    ∃ a b c d, t.splitOn '.' = [a, b, c, d] ∧ isOctetGroup a = true ∧
      isOctetGroup b = true ∧ isOctetGroup c = true ∧ isOctetGroup d = true := by
  unfold ipv4PatternCore at h
  rcases hsp : t.splitOn '.' with _ | ⟨a, _ | ⟨b, _ | ⟨c, _ | ⟨d, _ | ⟨e, t2⟩⟩⟩⟩⟩ <;>
    rw [hsp] at h
  · exact absurd h (by simp)
  · exact absurd h (by simp)
  · exact absurd h (by simp)
  · exact absurd h (by simp)
  · have h2 : (isOctetGroup a && isOctetGroup b && isOctetGroup c
        && isOctetGroup d) = true := h
    simp only [Bool.and_eq_true] at h2
    exact ⟨a, b, c, d, rfl, h2.1.1.1, h2.1.1.2, h2.1.2, h2.2⟩
  · exact absurd h (by simp)

/-- C3 (amended): `validate_ip` accepts a candidate string iff either the
string itself or — because the regex's `$` also matches just before one final
newline — the string minus a single trailing newline consists of exactly four
dot-separated fields of one to three decimal digits each, with every field's
value in `[0, 255]`. In particular a numeric field of four or more digits,
such as `0001`, is rejected even though its value is in range. -/
theorem validate_ip_characterization (s : Str) :
    validate_ip s
      = (goodIPv4 s || (decide (s.getLast? = some '\n') && goodIPv4 s.dropLast)) := by
  by_cases hnl : s.getLast? = some '\n'
  · have hsne : s ≠ [] := by
      intro he
      rw [he] at hnl
      simp at hnl
    have hlast : s.getLast hsne = '\n' := by
      have h1 := List.getLast?_eq_getLast s hsne
      rw [hnl] at h1
      injection h1 with h2
      exact h2.symm
    have hsdec : s.dropLast ++ ['\n'] = s := by
      have hd1 := List.dropLast_append_getLast hsne
      rw [hlast] at hd1
      exact hd1
    have hcoreS : ipv4PatternCore s = false := core_false_of_newline s hnl
    have hgoodS : goodIPv4 s = false := by
      cases hg : goodIPv4 s
      · rfl
      · have hcs := goodIPv4_imp_core s hg
        rw [hcoreS] at hcs
        exact absurd hcs (by simp)
    have hmatch : ipv4PatternMatch s = ipv4PatternCore s.dropLast := by
      rw [ipv4PatternMatch, hcoreS, Bool.false_or, decide_eq_true hnl, Bool.true_and]
    rw [hgoodS, Bool.false_or, decide_eq_true hnl, Bool.true_and]
    unfold validate_ip
    rw [hmatch]
    by_cases hcd : ipv4PatternCore s.dropLast = true
    · rw [if_pos hcd]
      obtain ⟨a, b, c, d, hsp, ha, hb, hc2, hd2⟩ := core_shape s.dropLast hcd
      obtain ⟨hdne, hdd⟩ := octet_group_facts d hd2
      have hsps : s.splitOn '.' = [a, b, c, d ++ ['\n']] := by
        conv_lhs => rw [← hsdec]
        rw [splitOn_append_newline, hsp]
        rfl
      rw [hsps]
      unfold goodIPv4
      rw [hsp]
      simp only [List.all_cons, List.all_nil, Bool.and_true]
      rw [octet_check_eq a ha, octet_check_eq b hb, octet_check_eq c hc2,
        octet_check_strip (d ++ ['\n']) d (pyStrip_digits_newline d hdne hdd) hdne hdd]
      simp [goodOctet, ha, hb, hc2, hd2, Bool.and_assoc]
    · rw [if_neg hcd]
      cases hg : goodIPv4 s.dropLast
      · rfl
      · exact absurd (goodIPv4_imp_core s.dropLast hg) hcd
  · have hdec : decide (s.getLast? = some '\n') = false := by
      simp only [decide_eq_false_iff_not]
      exact hnl
    rw [hdec, Bool.false_and, Bool.or_false]
    have hmatch : ipv4PatternMatch s = ipv4PatternCore s := by
      rw [ipv4PatternMatch, hdec, Bool.false_and, Bool.or_false]
    unfold validate_ip
    rw [hmatch]
    unfold ipv4PatternCore goodIPv4
    rcases hsplit : s.splitOn '.' with _ | ⟨a, _ | ⟨b, _ | ⟨c, _ | ⟨d, _ | ⟨e, t⟩⟩⟩⟩⟩
    · simp
    · simp
    · simp
    · simp
    · by_cases hcore :
        (isOctetGroup a && isOctetGroup b && isOctetGroup c && isOctetGroup d) = true
      · rw [if_pos hcore]
        simp only [Bool.and_eq_true] at hcore
        obtain ⟨⟨⟨ha, hb⟩, hc2⟩, hd2⟩ := hcore
        simp only [List.all_cons, List.all_nil, Bool.and_true]
        rw [octet_check_eq a ha, octet_check_eq b hb, octet_check_eq c hc2,
          octet_check_eq d hd2]
        simp [goodOctet, ha, hb, hc2, hd2, Bool.and_assoc]
      · rw [if_neg hcore]
        symm
        rw [Bool.eq_false_iff]
        intro hgood
        apply hcore
        simp only [goodOctet, Bool.and_eq_true] at hgood
        simp only [Bool.and_eq_true]
        tauto
    · simp

/-- Witness-style instance of C3's amended theorem on a plain valid address
string, evaluated concretely. -/
theorem validate_ip_characterization_witness :
    validate_ip ("1.2.3.4".toList)
      = (goodIPv4 ("1.2.3.4".toList)
          || (decide ((("1.2.3.4".toList) : Str).getLast? = some '\n')
              && goodIPv4 (("1.2.3.4".toList) : Str).dropLast)) :=
  validate_ip_characterization ("1.2.3.4".toList)

/-- C3 counterexample: the string `0001.1.1.1` has exactly four dot-separated
numeric fields whose values all lie in `[0, 255]`, yet `validate_ip` rejects
it — the regex admits at most three digits per field. -/
theorem validate_ip_counterexample :
    fourNumericFieldsInRange ("0001.1.1.1".toList) = true ∧
    validate_ip ("0001.1.1.1".toList) = false := by
  constructor
  · decide
  · decide

/-! ### Rendering -/

/-- C4 (amended): each aggregated record is rendered as one line
`<ip>:<port>#<tags joined by single space>` followed by a single space and
then either the latency formatted to two decimal places plus ` ms`, or
`Failed` — where the ip, port and tag fields are the comma-split fields of the
whole-line-stripped stored key taken verbatim (no per-field whitespace
trimming), and an empty tag list leaves `#` followed by the separating space
and the latency/failure text. -/
theorem render_line_format (ip port : Str) (tags : List Str) (lat : Lat)
    (hc : ∀ f ∈ ip :: port :: tags, ',' ∉ f)
    (hs : pyStrip (List.intercalate [','] (ip :: port :: tags))
      = List.intercalate [','] (ip :: port :: tags)) :
    renderLine (List.intercalate [','] (ip :: port :: tags)) lat =
      ip ++ (':' :: port) ++ ('#' :: List.intercalate [' '] tags) ++
        (match lat with
         | Lat.fin v => ' ' :: (formatFix2 v ++ (" ms".toList))
         | Lat.inf => (" Failed".toList)) := by
  have hsplit : (pyStrip (List.intercalate [','] (ip :: port :: tags))).splitOn ','
      = ip :: port :: tags := by
    rw [hs]
    exact List.splitOn_intercalate (ip :: port :: tags) ',' hc (by simp)
  rw [renderLine.eq_def, hsplit]
  cases lat <;> simp [List.append_assoc]

/-- Witness for C4's amended theorem on a record with two tags. -/
theorem render_line_format_witness :
    renderLine ("1.1.1.1,443,US,CF".toList) (Lat.fin 10)
      = ("1.1.1.1:443#US CF 10.00 ms".toList) := by
  have h := render_line_format ("1.1.1.1".toList) ("443".toList)
    [("US".toList), ("CF".toList)] (Lat.fin 10) (by decide) (by decide)
  exact h

/-- C4 counterexample: for the stored key `1.1.1.1, 443` (a key whose fields
carry the whitespace of the original input line) with representative latency
`10`, the written line keeps the space before `443` and puts a space between
`#` and the latency text — it is not the claimed trimmed form
`1.1.1.1:443#10.00 ms`. -/
theorem render_counterexample :
    renderLine ("1.1.1.1, 443".toList) (Lat.fin 10)
      = ("1.1.1.1: 443# 10.00 ms".toList) ∧
    renderLine ("1.1.1.1, 443".toList) (Lat.fin 10)
      ≠ ("1.1.1.1:443#10.00 ms".toList) := by
  constructor
  · decide
  · decide

end Latency
